import Mathlib

/-!
Verification of the topology-runner reconciliation engine
(`ingestion/src/metadata/ingestion/api/topology_runner.py`).

The Python mixin `TopologyRunnerMixin` is shallowly embedded: the mutable
run state (run context, fingerprint cache) is threaded explicitly, remote
calls are modelled by a clock-indexed oracle recorded in a call log, and
generator semantics are modelled by returning the list of yielded items
together with an optional escaped exception (items yielded before a raise
are kept, as a Python consumer would have received them).
-/

set_option maxHeartbeats 1000000

namespace TopologyRunner

/-- Association-list lookup keyed by strings. -/
def assocGet {α : Type} : List (String × α) → String → Option α
  | [], _ => none
  | (k, v) :: rest, key => if k = key then some v else assocGet rest key

/-- Association-list update: replaces the first binding of the key in place,
or appends a new binding at the end (so first-insertion order is kept, which
is the nesting order of the run context). -/
def assocSet {α : Type} : List (String × α) → String → α → List (String × α)
  | [], key, v => [(key, v)]
  | (k, w) :: rest, key, v =>
    if k = key then (key, v) :: rest else (k, w) :: assocSet rest key v

/-- The run context: logical slot name (e.g. "database") to the identifier
currently set at that nesting level, in nesting order. -/
abbrev Ctx := List (String × String)

/-- The fingerprint cache `{child_stage.type_: {name: hash}}` of
`TopologyRunnerMixin.cache` (a `defaultdict(dict)`). -/
abbrev Cache := List (String × List (String × String))

/-- Fingerprint-cache read `self.cache[stage.type_].get(entity_fqn)`;
a missing type key behaves as an empty dict (defaultdict). -/
def cacheGet (c : Cache) (ty fqn : String) : Option String :=
  match assocGet c ty with
  | some m => assocGet m fqn
  | none => none

/-- Fingerprint-cache write `self.cache[child_type][fqn] = hash`. -/
def cacheSet (c : Cache) (ty fqn h : String) : Cache :=
  match assocGet c ty with
  | some m => assocSet c ty (assocSet m fqn h)
  | none => assocSet c ty [(fqn, h)]

/-- Python truthiness of an optional string (`None` and `""` are falsy). -/
def strOptTruthy : Option String → Bool
  | some s => s != ""
  | none => false

/-- `NodeStage`: the declarative description of one stage of a topology node
(entity types are identified by their class name). -/
structure Stage where
  type_ : String
  context : Option String := none
  nullable : Bool := true
  must_return : Bool := false
  cache_entities : Bool := false
  use_cache : Bool := false
  clear_context : Bool := false
  overwrite : Bool := true
deriving DecidableEq, Repr

/-- An entity or create-request object: its name, its `sourceHash`
fingerprint field, and its remaining named fields. -/
structure Obj where
  name : String
  sourceHash : Option String := none
  fields : List (String × String) := []
deriving DecidableEq, Repr

/-- Field access on the open part of an object. -/
def getField (o : Obj) (k : String) : Option String :=
  assocGet o.fields k

/-- `original_entity.copy(update=create_request.__dict__)`: every attribute of
the create request (name, sourceHash and all named fields) overrides the
original entity's value; attributes only present on the original (server-only
fields) are preserved.  Field lookup is first-match, so prepending the update
fields gives the override semantics. -/
def copyUpdate (original update : Obj) : Obj :=
  { name := update.name
    sourceHash := update.sourceHash
    fields := update.fields ++ original.fields }

/-- A request to be sent to the sink: either an untouched create request or a
`PatchRequest` bundling the original entity with the merged new entity. -/
inductive Req where
  | create (o : Obj)
  | patch (original_entity new_entity : Obj)
deriving DecidableEq, Repr

/-- `Either` as received by `sink_request`: optional failure (`left`) and
optional create request (`right`); both may be `None`. -/
structure EitherC where
  left : Option String := none
  right : Option Obj := none
deriving DecidableEq, Repr

/-- `Either` as yielded downstream: the right side may have been rewritten
into a patch request. -/
structure EitherE where
  left : Option String := none
  right : Option Req := none
deriving DecidableEq, Repr

/-- The exceptions that can escape the embedded functions. -/
inductive RunError where
  | valueError
  | missingAck (typeName fqn : String)
  | keyError
deriving DecidableEq, Repr

/-- A remote entity returned by `list_all_entities` with `fields=["sourceHash"]`. -/
structure ListedEntity where
  fullyQualifiedName : String
  sourceHash : Option String := none
deriving DecidableEq, Repr

/-- The collaborators of the engine: the remote store (clock-indexed
`get_by_name` oracle, so eventually-consistent behaviour is expressible),
the bulk-listing oracle, the fingerprint function and the global
force-overwrite flag. -/
structure Env where
  remote : Nat → String → String → Option Obj
  listing : String → List (String × String) → List ListedEntity
  hashFn : Obj → String
  forceOverwrite : Bool := false

/-- The mutable per-run state: run context, fingerprint cache, the remote
clock and the log of `get_by_name` calls (type, fqn). -/
structure RunState where
  ctx : Ctx := []
  cache : Cache := []
  clock : Nat := 0
  callLog : List (String × String) := []
deriving DecidableEq, Repr

/-- `self.metadata.get_by_name(entity=ty, fqn=fqn, fields=[...])`: consults the
oracle at the current clock, advances the clock and records the call. -/
def getByName (env : Env) (st : RunState) (ty fqn : String) : Option Obj × RunState :=
  (env.remote st.clock ty fqn,
   { st with clock := st.clock + 1, callLog := st.callLog ++ [(ty, fqn)] })

/-- Modelled from the spec: `TopologyContext.fqn_from_stage` (the topology
context class is not among the sources under verification).  Per the spec it
builds a fully-qualified name by concatenating all currently-set ancestor
identifiers with the given leaf name in nesting order; the stage's own slot
is not one of its ancestors. -/
def fqn_from_stage (ctx : Ctx) (stage : Stage) (entity_name : String) : String :=
  String.intercalate "."
    (((ctx.filter (fun p => some p.1 != stage.context)).map Prod.snd) ++ [entity_name])

/-- Modelled from the spec: `TopologyContext.update_context_name` (not among
the sources under verification) stores the identifier (the `name`) of the
given request object under the stage's context slot. -/
def update_context_name (ctx : Ctx) (stage : Stage) (right : Obj) : Ctx :=
  match stage.context with
  | some key => assocSet ctx key right.name
  | none => ctx

/-- Modelled from the spec: `TopologyContext.clear_stage` (not among the
sources under verification) removes the stage's context slot. -/
def clear_stage (ctx : Ctx) (stage : Stage) : Ctx :=
  match stage.context with
  | some key => ctx.filter (fun p => p.1 != key)
  | none => ctx

/-- Lines 256-266: the non-overwrite pre-lookup.  If the stage must not
overwrite and force-overwrite is off, fetch the entity by name (a found
entity means the write will be suppressed). -/
def preLookup (env : Env) (stage : Stage) (entity_fqn : String) (st : RunState) :
    Option Obj × RunState :=
  if !stage.overwrite && !env.forceOverwrite then
    getByName env st stage.type_ entity_fqn
  else (none, st)

/-- Lines 276-300: the fingerprint-cache comparison.  Only runs when no
entity was resolved yet and the stage opted into caching.  Returns the
resolved entity (if any), the request to yield (create or patch), the
`same_fingerprint` flag and the updated state.  A cached hash equal to the
computed one suppresses the write; a differing one triggers a fetch and, if
the fetch succeeds, a patch request built by `create_patch_request`. -/
def cacheCompare (env : Env) (stage : Stage) (entity_fqn : String) (right1 : Obj)
    (hash : String) (entity0 : Option Obj) (same0 : Bool) (st : RunState) :
    Option Obj × Req × Bool × RunState :=
  if entity0.isNone && stage.use_cache then
    match cacheGet st.cache stage.type_ entity_fqn with
    | some cached =>
      if cached != "" then
        if cached ≠ hash then
          match getByName env st stage.type_ entity_fqn with
          | (some orig, st') => (some orig, Req.patch orig (copyUpdate orig right1), same0, st')
          | (none, st') => (none, Req.create right1, same0, st')
        else (entity0, Req.create right1, true, st)
      else (entity0, Req.create right1, same0, st)
    | none => (entity0, Req.create right1, same0, st)
  else (entity0, Req.create right1, same0, st)

/-- Lines 311-318: `tries = 3; while not entity and tries > 0: get_by_name`. -/
def ackLoop (env : Env) (ty fqn : String) : Nat → RunState → Option Obj × RunState
  | 0, st => (none, st)
  | Nat.succ n, st =>
    match getByName env st ty fqn with
    | (some x, st') => (some x, st')
    | (none, st') => ackLoop env ty fqn n st'

/-- Lines 239-328: the default `yield_and_update_context` dispatch for a
create request carrying a `sourceHash` attribute.  `left` is the failure side
of the incoming `Either` (carried through to the yielded item).  Returns the
yielded items, the final state and the escaped exception, if any; on a
missing acknowledgement the context is not updated (the raise precedes the
update in the source). -/
def yield_and_update_context (env : Env) (stage : Stage) (left : Option String)
    (right : Obj) (st : RunState) : List EitherE × RunState × Option RunError :=
  let entity_fqn := fqn_from_stage st.ctx stage right.name
  let pl := preLookup env stage entity_fqn st
  let hash := env.hashFn right
  let right1 : Obj := { right with sourceHash := some hash }
  let cc := cacheCompare env stage entity_fqn right1 hash pl.1 pl.1.isSome pl.2
  let outs : List EitherE := if cc.2.2.1 then [] else [⟨left, some cc.2.1⟩]
  if stage.must_return && cc.1.isNone then
    match ackLoop env stage.type_ entity_fqn 3 cc.2.2.2 with
    | (none, st2) => (outs, st2, some (RunError.missingAck stage.type_ entity_fqn))
    | (some _, st2) =>
      (outs, { st2 with ctx := update_context_name st2.ctx stage right1 }, none)
  else
    (outs, { cc.2.2.2 with ctx := update_context_name cc.2.2.2.ctx stage right1 }, none)

/-- Lines 376-412: `sink_request`.  Raises a value error on a non-nullable
request with neither side set; dispatches right-valued requests through
`yield_and_update_context` when the stage has a context binding, and yields
them unchanged otherwise; left-valued requests are yielded unchanged. -/
def sink_request (env : Env) (stage : Stage) (entity_request : EitherC)
    (st : RunState) : List EitherE × RunState × Option RunError :=
  if !stage.nullable && entity_request.right.isNone && entity_request.left.isNone then
    ([], st, some RunError.valueError)
  else
    match entity_request.right with
    | some o =>
      if strOptTruthy stage.context then
        yield_and_update_context env stage entity_request.left o st
      else
        ([⟨entity_request.left, some (Req.create o)⟩], st, none)
    | none => ([⟨entity_request.left, none⟩], st, none)

/-- One stage of a topology node together with its transform function
(`getattr(self, stage.processor)`); an absent result (`or []`) is the empty
list. -/
structure StageSpec where
  stage : Stage
  processor : Obj → List EitherC

/-- One post-process hook (`getattr(self, process)()`), modelled by the items
it yields before possibly raising, and the raised exception message if any.
Items yielded before a raise have already been delivered to the consumer. -/
structure PostHook where
  yielded : List EitherE
  exc : Option String := none

/-- A topology node: its producer's output, its ordered stages, its child
nodes and its post-process hooks. -/
inductive TNode : Type where
  | mk (producerOut : List Obj) (stages : List StageSpec) (children : List TNode)
       (postProcess : List PostHook) : TNode

/-- The stages of a node. -/
def TNode.stages : TNode → List StageSpec
  | .mk _ s _ _ => s

/-- Lines 197-203: the listing filter parameters for the bulk query. -/
def hashParamsFor (parent_type child_type entity_fqn : String) :
    List (String × String) :=
  if parent_type = "Database" ∨ parent_type = "DatabaseSchema" then
    if child_type = "StoredProcedure" then [("databaseSchema", entity_fqn)]
    else [("database", entity_fqn)]
  else [("service", entity_fqn)]

/-- The recording fold of `get_fqn_source_hash_dict`: each listed entity with
a truthy `sourceHash` is stored under its fully-qualified name; the others
are skipped. -/
def recordHashes (child_type : String) : List ListedEntity → Cache → Cache
  | [], c => c
  | e :: rest, c =>
    recordHashes child_type rest
      (if strOptTruthy e.sourceHash then
        cacheSet c child_type e.fullyQualifiedName (e.sourceHash.getD "")
      else c)

/-- Lines 191-213: `get_fqn_source_hash_dict`.  Performs one bulk listing of
`child_type` entities under `entity_fqn` and merges the (fqn, sourceHash)
pairs of the entities that carry a truthy hash into the cache. -/
def get_fqn_source_hash_dict (env : Env) (parent_type child_type entity_fqn : String)
    (cache : Cache) : Cache :=
  recordHashes child_type
    (env.listing child_type (hashParamsFor parent_type child_type entity_fqn)) cache

/-- Inner loop of `_init_cache_dict`: populate the cache once per child stage
that opted into caching. -/
def initCacheChildStages (env : Env) (stage : Stage) (entity_fqn : String) :
    List StageSpec → Cache → Cache
  | [], c => c
  | cs :: rest, c =>
    initCacheChildStages env stage entity_fqn rest
      (if cs.stage.use_cache then
        get_fqn_source_hash_dict env stage.type_ cs.stage.type_ entity_fqn c
      else c)

/-- Lines 169-189: `_init_cache_dict`.  For every caching child stage, builds
the parent scope fqn from `self.context.__dict__[stage.context]` (a missing
slot raises a key error, as the Python dict access would) and fills the
cache.  Only the cache component of the state changes. -/
def _init_cache_dict (env : Env) (stage : Stage) (child_nodes : List TNode)
    (st : RunState) : RunState × Option RunError :=
  if child_nodes.any (fun n => n.stages.any (fun cs => cs.stage.use_cache)) then
    match stage.context with
    | none => (st, some RunError.keyError)
    | some key =>
      match assocGet st.ctx key with
      | none => (st, some RunError.keyError)
      | some ctxName =>
        let entity_fqn := fqn_from_stage st.ctx stage ctxName
        let cache' := child_nodes.foldl
          (fun c n => initCacheChildStages env stage entity_fqn n.stages c) st.cache
        ({ st with cache := cache' }, none)
  else (st, none)

/-- Lines 139-147: the request loop of `_process_stage`.  Each produced
request is dispatched through `sink_request` inside a try block that catches
(and logs) value errors: the offending request contributes nothing and the
loop continues; any other exception aborts the loop (items already yielded
are kept). -/
def processStageRequests (env : Env) (stage : Stage) :
    List EitherC → RunState → List EitherE × RunState × Option RunError
  | [], st => ([], st, none)
  | r :: rs, st =>
    match sink_request env stage r st with
    | (o, st', some RunError.valueError) =>
      let rest := processStageRequests env stage rs st'
      (o ++ rest.1, rest.2)
    | (o, st', some err) => (o, st', some err)
    | (o, st', none) =>
      let rest := processStageRequests env stage rs st'
      (o ++ rest.1, rest.2)

/-- Lines 125-150: `_process_stage`.  Runs the stage's transform over the
candidate, dispatches every produced request, then (when the stage caches
entities and no exception escaped) initializes the fingerprint cache for the
caching child stages. -/
def _process_stage (env : Env) (ss : StageSpec) (node_entity : Obj)
    (child_nodes : List TNode) (st : RunState) :
    List EitherE × RunState × Option RunError :=
  match processStageRequests env ss.stage (ss.processor node_entity) st with
  | (o, st', some err) => (o, st', some err)
  | (o, st', none) =>
    if ss.stage.cache_entities then
      match _init_cache_dict env ss.stage child_nodes st' with
      | (st'', e) => (o, st'', e)
    else (o, st', none)

/-- Lines 152-167: `_run_node_post_process`.  Each hook runs inside a try
block catching every exception: the items a hook yielded before raising are
delivered, the exception is logged and swallowed, and the remaining hooks
still run. -/
def _run_node_post_process : List PostHook → List EitherE
  | [] => []
  | h :: hs => h.yielded ++ _run_node_post_process hs

/-- Lines 102-105: run every stage of the node, in order, over one produced
candidate.  An uncaught exception aborts the remaining stages. -/
def processAllStages (env : Env) (children : List TNode) (node_entity : Obj) :
    List StageSpec → RunState → List EitherE × RunState × Option RunError
  | [], st => ([], st, none)
  | s :: rest, st =>
    match _process_stage env s node_entity children st with
    | (o, st', some err) => (o, st', some err)
    | (o, st', none) =>
      let r := processAllStages env children node_entity rest st'
      (o ++ r.1, r.2)

/-- Lines 107-110: after all stages of a candidate, clear the context slots
of the stages that requested it. -/
def clearStages : List StageSpec → Ctx → Ctx
  | [], ctx => ctx
  | s :: rest, ctx =>
    clearStages rest (if s.stage.clear_context then clear_stage ctx s.stage else ctx)

/-- Does some stage of the list bind this context slot? -/
def stagesBindKey (k : String) (stages : List StageSpec) : Bool :=
  stages.any (fun s => s.stage.context == some k)

mutual

/-- Does some stage of this node or of a descendant bind this context slot? -/
def nodeBinds (k : String) : TNode → Bool
  | .mk _ stages children _ => stagesBindKey k stages || nodesBind k children
termination_by n => sizeOf n

/-- Does some stage anywhere in this forest bind this context slot? -/
def nodesBind (k : String) : List TNode → Bool
  | [] => false
  | n :: rest => nodeBinds k n || nodesBind k rest
termination_by ns => sizeOf ns

end

mutual

/-- Lines 92-115: `process_nodes`.  Depth-first: for each node, for each
produced candidate, run all stages, clear the requested context slots, then
fully process the children; the node's post-process hooks run after all its
candidates are exhausted.  An uncaught exception propagates (items already
yielded are kept). -/
def process_nodes (env : Env) : List TNode → RunState →
    List EitherE × RunState × Option RunError
  | [], st => ([], st, none)
  | n :: rest, st =>
    match processOneNode env n st with
    | (o, st', some err) => (o, st', some err)
    | (o, st', none) =>
      let r := process_nodes env rest st'
      (o ++ r.1, r.2)
termination_by ns _ => sizeOf ns

/-- One node of `process_nodes`: the candidate loop followed by the
post-process hooks. -/
def processOneNode (env : Env) : TNode → RunState →
    List EitherE × RunState × Option RunError
  | .mk prod stages children post, st =>
    match processCandidates env stages children prod st with
    | (o, st', some err) => (o, st', some err)
    | (o, st', none) => (o ++ _run_node_post_process post, st', none)
termination_by n _ => sizeOf n

/-- The candidate loop of `process_nodes`: stages, context clearing, then the
children — children are fully processed once per candidate, depth-first. -/
def processCandidates (env : Env) (stages : List StageSpec) (children : List TNode) :
    List Obj → RunState → List EitherE × RunState × Option RunError
  | [], st => ([], st, none)
  | c :: cs, st =>
    match processAllStages env children c stages st with
    | (o1, st1, some err) => (o1, st1, some err)
    | (o1, st1, none) =>
      let st2 := { st1 with ctx := clearStages stages st1.ctx }
      match process_nodes env children st2 with
      | (o2, st3, some err) => (o1 ++ o2, st3, some err)
      | (o2, st3, none) =>
        let r := processCandidates env stages children cs st3
        (o1 ++ o2 ++ r.1, r.2)
termination_by cs _ => sizeOf children + sizeOf cs

end

/-! ### Association-list lemmas -/

theorem assocGet_assocSet_self {α : Type} (m : List (String × α)) (k : String) (v : α) :
    assocGet (assocSet m k v) k = some v := by
  induction m with
  | nil => simp [assocGet, assocSet]
  | cons p rest ih =>
    by_cases h : p.1 = k
    · simp [assocSet, h, assocGet]
    · simp [assocSet, h, assocGet, ih]

theorem assocGet_assocSet_ne {α : Type} (m : List (String × α)) (k k' : String) (v : α)
    (h : k ≠ k') : assocGet (assocSet m k v) k' = assocGet m k' := by
  induction m with
  | nil => simp [assocGet, assocSet, h]
  | cons p rest ih =>
    by_cases hp : p.1 = k
    · simp [assocSet, hp, assocGet, h, Ne.symm h]
    · by_cases hp' : p.1 = k'
      · simp [assocSet, hp, assocGet, hp', Ne.symm h]
      · simp [assocSet, hp, assocGet, hp', ih]

theorem assocGet_filterKey_self (m : Ctx) (key : String) :
    assocGet (m.filter (fun p => p.1 != key)) key = none := by
  induction m with
  | nil => simp [assocGet]
  | cons p rest ih =>
    by_cases h : p.1 = key
    · simpa [List.filter_cons, bne_iff_ne, h] using ih
    · simp [List.filter_cons, bne_iff_ne, h, assocGet, ih]

theorem assocGet_filterKey_ne (m : Ctx) (key k : String) (h : k ≠ key) :
    assocGet (m.filter (fun p => p.1 != key)) k = assocGet m k := by
  induction m with
  | nil => simp
  | cons p rest ih =>
    by_cases hp : p.1 = key
    · simp [List.filter_cons, bne_iff_ne, hp, assocGet, Ne.symm h, ih]
    · by_cases hk : p.1 = k
      · simp [List.filter_cons, bne_iff_ne, hp, assocGet, hk, h]
      · simp [List.filter_cons, bne_iff_ne, hp, assocGet, hk, ih]

/-! ### Context-slot lemmas for the modelled context operations -/

theorem update_context_name_get_self (ctx : Ctx) (stage : Stage) (r : Obj) (key : String)
    (h : stage.context = some key) :
    assocGet (update_context_name ctx stage r) key = some r.name := by
  simp [update_context_name, h, assocGet_assocSet_self]

theorem update_context_name_get_ne (ctx : Ctx) (stage : Stage) (r : Obj) (k : String)
    (h : stage.context ≠ some k) :
    assocGet (update_context_name ctx stage r) k = assocGet ctx k := by
  unfold update_context_name
  match hs : stage.context with
  | none => rfl
  | some key =>
    have : key ≠ k := fun e => h (by rw [hs, e])
    exact assocGet_assocSet_ne _ _ _ _ this

theorem clear_stage_get_self (ctx : Ctx) (stage : Stage) (key : String)
    (h : stage.context = some key) :
    assocGet (clear_stage ctx stage) key = none := by
  simp [clear_stage, h, assocGet_filterKey_self]

theorem clear_stage_get_ne (ctx : Ctx) (stage : Stage) (k : String)
    (h : stage.context ≠ some k) :
    assocGet (clear_stage ctx stage) k = assocGet ctx k := by
  unfold clear_stage
  match hs : stage.context with
  | none => rfl
  | some key =>
    have : k ≠ key := fun e => h (by rw [hs, e])
    exact assocGet_filterKey_ne _ _ _ this

/-! ### State-component invariance of the dispatcher phases -/

theorem getByName_ctx (env : Env) (st : RunState) (ty fqn : String) :
    ((getByName env st ty fqn).2).ctx = st.ctx := rfl

theorem getByName_cache (env : Env) (st : RunState) (ty fqn : String) :
    ((getByName env st ty fqn).2).cache = st.cache := rfl

theorem preLookup_ctx (env : Env) (stage : Stage) (fqn : String) (st : RunState) :
    ((preLookup env stage fqn st).2).ctx = st.ctx := by
  unfold preLookup; split <;> rfl

theorem preLookup_cache (env : Env) (stage : Stage) (fqn : String) (st : RunState) :
    ((preLookup env stage fqn st).2).cache = st.cache := by
  unfold preLookup; split <;> rfl

theorem cacheCompare_ctx (env : Env) (stage : Stage) (fqn : String) (r1 : Obj)
    (hash : String) (e0 : Option Obj) (s0 : Bool) (st : RunState) :
    ((cacheCompare env stage fqn r1 hash e0 s0 st).2.2.2).ctx = st.ctx := by
  unfold cacheCompare
  split
  · split
    · split
      · split
        · split <;> rename_i heq <;>
            (have h2 := congrArg (fun t : Option Obj × RunState => t.2.ctx) heq;
             simp only [getByName_ctx] at h2;
             exact h2.symm)
        · rfl
      · rfl
    · rfl
  · rfl

theorem cacheCompare_cache (env : Env) (stage : Stage) (fqn : String) (r1 : Obj)
    (hash : String) (e0 : Option Obj) (s0 : Bool) (st : RunState) :
    ((cacheCompare env stage fqn r1 hash e0 s0 st).2.2.2).cache = st.cache := by
  unfold cacheCompare
  split
  · split
    · split
      · split
        · split <;> rename_i heq <;>
            (have h2 := congrArg (fun t : Option Obj × RunState => t.2.cache) heq;
             simp only [getByName_cache] at h2;
             exact h2.symm)
        · rfl
      · rfl
    · rfl
  · rfl

theorem ackLoop_ctx (env : Env) (ty fqn : String) :
    ∀ (n : Nat) (st : RunState), ((ackLoop env ty fqn n st).2).ctx = st.ctx
  | 0, st => rfl
  | Nat.succ n, st => by
    unfold ackLoop
    split <;> rename_i heq <;>
      have h2 := congrArg (fun t : Option Obj × RunState => t.2.ctx) heq <;>
      simp only [getByName_ctx] at h2
    · exact h2.symm
    · rw [ackLoop_ctx env ty fqn n]; exact h2.symm

theorem ackLoop_cache (env : Env) (ty fqn : String) :
    ∀ (n : Nat) (st : RunState), ((ackLoop env ty fqn n st).2).cache = st.cache
  | 0, st => rfl
  | Nat.succ n, st => by
    unfold ackLoop
    split <;> rename_i heq <;>
      have h2 := congrArg (fun t : Option Obj × RunState => t.2.cache) heq <;>
      simp only [getByName_cache] at h2
    · exact h2.symm
    · rw [ackLoop_cache env ty fqn n]; exact h2.symm

/-- The only context slot `yield_and_update_context` can change is the
stage's own binding. -/
theorem yield_and_update_context_ctx_frame (env : Env) (stage : Stage)
    (left : Option String) (right : Obj) (st : RunState) (k : String)
    (h : stage.context ≠ some k) :
    assocGet ((yield_and_update_context env stage left right st).2.1).ctx k
      = assocGet st.ctx k := by
  unfold yield_and_update_context
  dsimp only
  have hpl := preLookup_ctx env stage (fqn_from_stage st.ctx stage right.name) st
  have hcc := cacheCompare_ctx env stage (fqn_from_stage st.ctx stage right.name)
    { right with sourceHash := some (env.hashFn right) } (env.hashFn right)
    (preLookup env stage (fqn_from_stage st.ctx stage right.name) st).1
    (preLookup env stage (fqn_from_stage st.ctx stage right.name) st).1.isSome
    (preLookup env stage (fqn_from_stage st.ctx stage right.name) st).2
  split
  · split <;> rename_i heq <;>
      have h2 := congrArg (fun t : Option Obj × RunState => t.2.ctx) heq <;>
      simp only [ackLoop_ctx, hcc, hpl] at h2
    · rw [← h2]
    · dsimp only
      rw [update_context_name_get_ne _ _ _ _ h, ← h2]
  · dsimp only
    rw [update_context_name_get_ne _ _ _ _ h, hcc, hpl]

/-- `yield_and_update_context` never writes the fingerprint cache. -/
theorem yield_and_update_context_cache (env : Env) (stage : Stage)
    (left : Option String) (right : Obj) (st : RunState) :
    ((yield_and_update_context env stage left right st).2.1).cache = st.cache := by
  unfold yield_and_update_context
  dsimp only
  have hpl := preLookup_cache env stage (fqn_from_stage st.ctx stage right.name) st
  have hcc := cacheCompare_cache env stage (fqn_from_stage st.ctx stage right.name)
    { right with sourceHash := some (env.hashFn right) } (env.hashFn right)
    (preLookup env stage (fqn_from_stage st.ctx stage right.name) st).1
    (preLookup env stage (fqn_from_stage st.ctx stage right.name) st).1.isSome
    (preLookup env stage (fqn_from_stage st.ctx stage right.name) st).2
  split
  · split <;> rename_i heq <;>
      have h2 := congrArg (fun t : Option Obj × RunState => t.2.cache) heq <;>
      simp only [ackLoop_cache, hcc, hpl] at h2 <;>
      dsimp only <;> rw [← h2]
  · dsimp only
    rw [hcc, hpl]

theorem sink_request_ctx_frame (env : Env) (stage : Stage) (req : EitherC)
    (st : RunState) (k : String) (h : stage.context ≠ some k) :
    assocGet ((sink_request env stage req st).2.1).ctx k = assocGet st.ctx k := by
  unfold sink_request
  split
  · rfl
  · split
    · split
      · exact yield_and_update_context_ctx_frame env stage _ _ st k h
      · rfl
    · rfl

theorem processStageRequests_ctx_frame (env : Env) (stage : Stage) (k : String)
    (h : stage.context ≠ some k) :
    ∀ (rs : List EitherC) (st : RunState),
      assocGet ((processStageRequests env stage rs st).2.1).ctx k = assocGet st.ctx k
  | [], st => rfl
  | r :: rs, st => by
    unfold processStageRequests
    have hs := sink_request_ctx_frame env stage r st k h
    split <;> rename_i heq
    · rw [processStageRequests_ctx_frame env stage k h rs]
      rw [show ((sink_request env stage r st).2.1) = _ from congrArg (fun t => t.2.1) heq] at hs
      exact hs
    · rw [show ((sink_request env stage r st).2.1) = _ from congrArg (fun t => t.2.1) heq] at hs
      exact hs
    · rw [processStageRequests_ctx_frame env stage k h rs]
      rw [show ((sink_request env stage r st).2.1) = _ from congrArg (fun t => t.2.1) heq] at hs
      exact hs

theorem init_cache_dict_ctx (env : Env) (stage : Stage) (child_nodes : List TNode)
    (st : RunState) :
    ((_init_cache_dict env stage child_nodes st).1).ctx = st.ctx := by
  unfold _init_cache_dict
  split
  · split
    · rfl
    · split
      · rfl
      · rfl
  · rfl

theorem process_stage_ctx_frame (env : Env) (ss : StageSpec) (c : Obj)
    (children : List TNode) (st : RunState) (k : String)
    (h : ss.stage.context ≠ some k) :
    assocGet ((_process_stage env ss c children st).2.1).ctx k = assocGet st.ctx k := by
  unfold _process_stage
  have hp := processStageRequests_ctx_frame env ss.stage k h (ss.processor c) st
  split <;> rename_i heq
  · rw [show ((processStageRequests env ss.stage (ss.processor c) st).2.1) = _ from
      congrArg (fun t => t.2.1) heq] at hp
    exact hp
  · rw [show ((processStageRequests env ss.stage (ss.processor c) st).2.1) = _ from
      congrArg (fun t => t.2.1) heq] at hp
    split
    · rw [init_cache_dict_ctx]
      exact hp
    · exact hp

theorem processAllStages_ctx_frame (env : Env) (children : List TNode) (c : Obj)
    (k : String) :
    ∀ (stages : List StageSpec) (st : RunState),
      stagesBindKey k stages = false →
      assocGet ((processAllStages env children c stages st).2.1).ctx k
        = assocGet st.ctx k
  | [], st, _ => rfl
  | s :: rest, st, hb => by
    have hsk : s.stage.context ≠ some k := by
      intro e
      simp [stagesBindKey, e] at hb
    have hrest : stagesBindKey k rest = false := by
      simp [stagesBindKey] at hb ⊢
      exact fun x hx => hb.2 x hx
    unfold processAllStages
    have hp := process_stage_ctx_frame env s c children st k hsk
    split <;> rename_i heq
    · rw [show ((_process_stage env s c children st).2.1) = _ from
        congrArg (fun t => t.2.1) heq] at hp
      exact hp
    · rw [show ((_process_stage env s c children st).2.1) = _ from
        congrArg (fun t => t.2.1) heq] at hp
      rw [processAllStages_ctx_frame env children c k rest _ hrest]
      exact hp

theorem clearStages_get_frame (k : String) :
    ∀ (stages : List StageSpec) (ctx : Ctx),
      stagesBindKey k stages = false →
      assocGet (clearStages stages ctx) k = assocGet ctx k
  | [], ctx, _ => rfl
  | s :: rest, ctx, hb => by
    have hsk : s.stage.context ≠ some k := by
      intro e
      simp [stagesBindKey, e] at hb
    have hrest : stagesBindKey k rest = false := by
      simp [stagesBindKey] at hb ⊢
      exact fun x hx => hb.2 x hx
    unfold clearStages
    rw [clearStages_get_frame k rest _ hrest]
    split
    · exact clear_stage_get_ne _ _ _ hsk
    · rfl

/-- Traversal frame property: a context slot bound by no stage of the forest
is untouched by the whole traversal. -/
theorem process_nodes_ctx_frame (env : Env) (k : String) :
    ∀ (ns : List TNode) (st : RunState), nodesBind k ns = false →
      assocGet ((process_nodes env ns st).2.1).ctx k = assocGet st.ctx k := by
  refine process_nodes.induct env
    (fun ns st => nodesBind k ns = false →
      assocGet ((process_nodes env ns st).2.1).ctx k = assocGet st.ctx k)
    (fun n st => nodeBinds k n = false →
      assocGet ((processOneNode env n st).2.1).ctx k = assocGet st.ctx k)
    (fun stages children cs st => stagesBindKey k stages = false →
      nodesBind k children = false →
      assocGet ((processCandidates env stages children cs st).2.1).ctx k
        = assocGet st.ctx k)
    ?_ ?_ ?_ ?_ ?_ ?_ ?_ ?_ ?_
  · intro st _
    simp [process_nodes]
  · intro n rest st o st' err heq ih hb
    have hn : nodeBinds k n = false := by
      simp [nodesBind] at hb; exact hb.1
    have := ih hn
    rw [heq] at this
    simp only [process_nodes, heq]
    exact this
  · intro n rest st o st' heq ih1 ih2 hb
    simp [nodesBind] at hb
    have h1 := ih1 hb.1
    rw [heq] at h1
    have h2 := ih2 (by simp [nodesBind, hb.2])
    simp only [process_nodes, heq]
    rw [h2, h1]
  · intro prod stages children post st o st' err heq ih hb
    simp [nodeBinds] at hb
    have := ih (by simp [hb.1]) (by simp [hb.2])
    rw [heq] at this
    simp only [processOneNode, heq]
    exact this
  · intro prod stages children post st o st' heq ih hb
    simp [nodeBinds] at hb
    have := ih (by simp [hb.1]) (by simp [hb.2])
    rw [heq] at this
    simp only [processOneNode, heq]
    exact this
  · intro stages children st _ _
    simp [processCandidates]
  · intro stages children c cs st o st' err heq hs _
    have := processAllStages_ctx_frame env children c k stages st hs
    rw [heq] at this
    simp only [processCandidates, heq]
    exact this
  · intro stages children c cs st o st' heq st2 o2 st3 err heq2 ih hs hc
    have h1 := processAllStages_ctx_frame env children c k stages st hs
    rw [heq] at h1
    have heq2' : process_nodes env children
        { ctx := clearStages stages st'.ctx, cache := st'.cache, clock := st'.clock,
          callLog := st'.callLog } = (o2, st3, some err) := heq2
    have h2 := ih hc
    rw [heq2] at h2
    have h2' : assocGet st3.ctx k = assocGet (clearStages stages st'.ctx) k := h2
    simp only [processCandidates]
    rw [heq]
    dsimp only
    rw [heq2']
    dsimp only
    rw [h2', clearStages_get_frame k stages _ hs, h1]
  · intro stages children c cs st o st' heq st2 o2 st3 heq2 ih1 ih2 hs hc
    have h1 := processAllStages_ctx_frame env children c k stages st hs
    rw [heq] at h1
    have heq2' : process_nodes env children
        { ctx := clearStages stages st'.ctx, cache := st'.cache, clock := st'.clock,
          callLog := st'.callLog } = (o2, st3, none) := heq2
    have h2 := ih1 hc
    rw [heq2] at h2
    have h2' : assocGet st3.ctx k = assocGet (clearStages stages st'.ctx) k := h2
    have h3 := ih2 hs hc
    simp only [processCandidates]
    rw [heq]
    dsimp only
    rw [heq2']
    dsimp only
    rw [h3, h2', clearStages_get_frame k stages _ hs, h1]

/-! ### Fingerprint-cache lemmas -/

theorem cacheGet_cacheSet_self (c : Cache) (ty fqn h : String) :
    cacheGet (cacheSet c ty fqn h) ty fqn = some h := by
  unfold cacheSet cacheGet
  match hm : assocGet c ty with
  | some m => simp [assocGet_assocSet_self]
  | none => simp [assocGet_assocSet_self, assocGet]

theorem cacheGet_cacheSet_ne_fqn (c : Cache) (ty fqn fqn' h : String)
    (hne : fqn ≠ fqn') : cacheGet (cacheSet c ty fqn h) ty fqn' = cacheGet c ty fqn' := by
  unfold cacheSet cacheGet
  match hm : assocGet c ty with
  | some m => simp [assocGet_assocSet_self, assocGet_assocSet_ne _ _ _ _ hne, hm]
  | none => simp [assocGet_assocSet_self, assocGet, hne, hm]

theorem cacheGet_cacheSet_ne_ty (c : Cache) (ty ty' fqn fqn' h : String)
    (hne : ty ≠ ty') : cacheGet (cacheSet c ty fqn h) ty' fqn' = cacheGet c ty' fqn' := by
  unfold cacheSet cacheGet
  match hm : assocGet c ty with
  | some m => simp [assocGet_assocSet_ne _ _ _ _ hne]
  | none => simp [assocGet_assocSet_ne _ _ _ _ hne]

/-- The hash that survives for a given name after recording a listing: the
last listed entity with that name and a truthy hash wins. -/
def lastGoodHash : List ListedEntity → String → Option String
  | [], _ => none
  | e :: rest, fqn =>
    match lastGoodHash rest fqn with
    | some h => some h
    | none =>
      if e.fullyQualifiedName = fqn ∧ strOptTruthy e.sourceHash then
        some (e.sourceHash.getD "")
      else none

/-- Characterization of the recording fold: a name maps to the last truthy
hash listed for it, and otherwise to whatever the cache held before. -/
theorem recordHashes_get (ct : String) :
    ∀ (es : List ListedEntity) (c : Cache) (fqn : String),
      cacheGet (recordHashes ct es c) ct fqn
        = match lastGoodHash es fqn with
          | some h => some h
          | none => cacheGet c ct fqn
  | [], c, fqn => by simp [recordHashes, lastGoodHash]
  | e :: rest, c, fqn => by
    unfold recordHashes lastGoodHash
    rw [recordHashes_get ct rest]
    match hl : lastGoodHash rest fqn with
    | some h => simp
    | none =>
      by_cases hg : strOptTruthy e.sourceHash
      · by_cases hf : e.fullyQualifiedName = fqn
        · simp [hg, hf, cacheGet_cacheSet_self]
        · simp [hg, hf, cacheGet_cacheSet_ne_fqn _ _ _ _ _ hf]
      · simp [hg]

/-- The recording fold never writes entries of a different entity type. -/
theorem recordHashes_other_ty (ct ty fqn : String) (hne : ty ≠ ct) :
    ∀ (es : List ListedEntity) (c : Cache),
      cacheGet (recordHashes ct es c) ty fqn = cacheGet c ty fqn
  | [], c => rfl
  | e :: rest, c => by
    unfold recordHashes
    rw [recordHashes_other_ty ct ty fqn hne rest]
    split
    · exact cacheGet_cacheSet_ne_ty _ _ _ _ _ _ (Ne.symm hne)
    · rfl

/-- If every listed entity with the given name lacks a truthy hash, nothing
good is recorded for that name. -/
theorem lastGoodHash_none (fqn : String) :
    ∀ (es : List ListedEntity),
      (∀ e ∈ es, e.fullyQualifiedName = fqn → strOptTruthy e.sourceHash = false) →
      lastGoodHash es fqn = none
  | [], _ => rfl
  | e :: rest, h => by
    unfold lastGoodHash
    rw [lastGoodHash_none fqn rest (fun x hx => h x (List.mem_cons_of_mem _ hx))]
    have := h e (List.mem_cons_self _ _)
    by_cases hf : e.fullyQualifiedName = fqn
    · simp [hf, this hf]
    · simp [hf]

/-- A listed entity with a truthy hash guarantees some hash is recorded for
its name. -/
theorem lastGoodHash_isSome (fqn : String) :
    ∀ (es : List ListedEntity) (e : ListedEntity), e ∈ es →
      e.fullyQualifiedName = fqn → strOptTruthy e.sourceHash = true →
      (lastGoodHash es fqn).isSome
  | [], e, he, _, _ => absurd he (List.not_mem_nil e)
  | x :: rest, e, he, hf, hg => by
    unfold lastGoodHash
    rcases List.mem_cons.mp he with h | h
    · match hl : lastGoodHash rest fqn with
      | some h2 => simp
      | none => subst h; simp [hf, hg]
    · have := lastGoodHash_isSome fqn rest e h hf hg
      match hl : lastGoodHash rest fqn with
      | some h2 => simp
      | none => rw [hl] at this; simp at this

/-- The only error `yield_and_update_context` can raise is the missing
acknowledgement. -/
theorem yield_and_update_context_err (env : Env) (stage : Stage)
    (left : Option String) (right : Obj) (st : RunState) :
    (yield_and_update_context env stage left right st).2.2 = none ∨
    (yield_and_update_context env stage left right st).2.2
      = some (RunError.missingAck stage.type_ (fqn_from_stage st.ctx stage right.name)) := by
  unfold yield_and_update_context
  dsimp only
  split
  · split
    · right; rfl
    · left; rfl
  · left; rfl

/-! ### Characterization of the dispatcher phases -/

theorem assocGet_append {α : Type} (a b : List (String × α)) (k : String) :
    assocGet (a ++ b) k
      = match assocGet a k with
        | some v => some v
        | none => assocGet b k := by
  induction a with
  | nil => simp [assocGet]
  | cons p rest ih =>
    by_cases h : p.1 = k
    · simp [assocGet, h]
    · simp [assocGet, h, ih]

/-- Shallow-merge semantics of the patch construction: a field of the merged
entity takes the candidate's value when the candidate sets it and the
original's value otherwise. -/
theorem copyUpdate_getField (original update : Obj) (k : String) :
    getField (copyUpdate original update) k
      = match assocGet update.fields k with
        | some v => some v
        | none => getField original k := by
  unfold copyUpdate getField
  dsimp only
  rw [assocGet_append]
  cases assocGet update.fields k <;> rfl

theorem cacheCompare_entity_found (env : Env) (stage : Stage) (fqn : String)
    (r1 : Obj) (hash : String) (e : Obj) (s0 : Bool) (st : RunState) :
    cacheCompare env stage fqn r1 hash (some e) s0 st
      = (some e, Req.create r1, s0, st) := by
  unfold cacheCompare
  simp

theorem cacheCompare_miss (env : Env) (stage : Stage) (fqn : String)
    (r1 : Obj) (hash : String) (s0 : Bool) (st : RunState)
    (hc : cacheGet st.cache stage.type_ fqn = none) :
    cacheCompare env stage fqn r1 hash none s0 st
      = (none, Req.create r1, s0, st) := by
  unfold cacheCompare
  by_cases hu : stage.use_cache
  · simp [hu, hc]
  · simp [hu]

theorem cacheCompare_hit_same (env : Env) (stage : Stage) (fqn : String)
    (r1 : Obj) (h : String) (s0 : Bool) (st : RunState)
    (huse : stage.use_cache = true)
    (hcache : cacheGet st.cache stage.type_ fqn = some h) (hne : h ≠ "") :
    cacheCompare env stage fqn r1 h none s0 st
      = (none, Req.create r1, true, st) := by
  unfold cacheCompare
  simp [huse, hcache, hne]

theorem cacheCompare_hit_diff_found (env : Env) (stage : Stage) (fqn : String)
    (r1 : Obj) (hash cached : String) (s0 : Bool) (st : RunState) (orig : Obj)
    (huse : stage.use_cache = true)
    (hcache : cacheGet st.cache stage.type_ fqn = some cached)
    (hne : cached ≠ "") (hdiff : cached ≠ hash)
    (hget : env.remote st.clock stage.type_ fqn = some orig) :
    cacheCompare env stage fqn r1 hash none s0 st
      = (some orig, Req.patch orig (copyUpdate orig r1), s0,
         { st with
           clock := st.clock + 1
           callLog := st.callLog ++ [(stage.type_, fqn)] }) := by
  unfold cacheCompare
  simp [huse, hcache, hne, hdiff, getByName, hget]

theorem cacheCompare_hit_diff_missing (env : Env) (stage : Stage) (fqn : String)
    (r1 : Obj) (hash cached : String) (s0 : Bool) (st : RunState)
    (huse : stage.use_cache = true)
    (hcache : cacheGet st.cache stage.type_ fqn = some cached)
    (hne : cached ≠ "") (hdiff : cached ≠ hash)
    (hget : env.remote st.clock stage.type_ fqn = none) :
    cacheCompare env stage fqn r1 hash none s0 st
      = (none, Req.create r1, s0,
         { st with
           clock := st.clock + 1
           callLog := st.callLog ++ [(stage.type_, fqn)] }) := by
  unfold cacheCompare
  simp [huse, hcache, hne, hdiff, getByName, hget]

theorem preLookup_overwrite (env : Env) (stage : Stage) (fqn : String)
    (st : RunState) (hov : stage.overwrite = true) :
    preLookup env stage fqn st = (none, st) := by
  simp [preLookup, hov]

theorem preLookup_found (env : Env) (stage : Stage) (fqn : String)
    (st : RunState) (e : Obj) (hov : stage.overwrite = false)
    (hfov : env.forceOverwrite = false)
    (hget : env.remote st.clock stage.type_ fqn = some e) :
    preLookup env stage fqn st
      = (some e, { st with
          clock := st.clock + 1
          callLog := st.callLog ++ [(stage.type_, fqn)] }) := by
  simp [preLookup, hov, hfov, getByName, hget]

theorem ackLoop_all_none (env : Env) (ty fqn : String) (st : RunState)
    (h0 : env.remote st.clock ty fqn = none)
    (h1 : env.remote (st.clock + 1) ty fqn = none)
    (h2 : env.remote (st.clock + 2) ty fqn = none) :
    ackLoop env ty fqn 3 st
      = (none, { st with
          clock := st.clock + 3
          callLog := st.callLog ++ [(ty, fqn), (ty, fqn), (ty, fqn)] }) := by
  simp [ackLoop, getByName, h0, h1, h2]

theorem ackLoop_first_some (env : Env) (ty fqn : String) (st : RunState)
    (n : Nat) (e : Obj) (hget : env.remote st.clock ty fqn = some e) :
    ackLoop env ty fqn (n + 1) st
      = (some e, { st with
          clock := st.clock + 1
          callLog := st.callLog ++ [(ty, fqn)] }) := by
  simp [ackLoop, getByName, hget]

theorem ackLoop_step_none (env : Env) (ty fqn : String) (st : RunState)
    (n : Nat) (hget : env.remote st.clock ty fqn = none) :
    ackLoop env ty fqn (n + 1) st
      = ackLoop env ty fqn n { st with
          clock := st.clock + 1
          callLog := st.callLog ++ [(ty, fqn)] } := by
  simp [ackLoop, getByName, hget]

theorem ackLoop_callLog_le (env : Env) (ty fqn : String) :
    ∀ (n : Nat) (st : RunState),
      ((ackLoop env ty fqn n st).2).callLog.length ≤ st.callLog.length + n
  | 0, st => Nat.le_add_right _ _
  | Nat.succ n, st => by
    unfold ackLoop
    split <;> rename_i heq <;>
      have h2 := congrArg (fun t : Option Obj × RunState => t.2.callLog) heq <;>
      simp only [getByName] at h2
    · rw [← h2]
      simp
    · calc ((ackLoop env ty fqn n _).2).callLog.length
          ≤ _ + n := ackLoop_callLog_le env ty fqn n _
        _ ≤ st.callLog.length + (n + 1) := by rw [← h2]; simp; omega

/-! ### Shared concrete collaborators for witnesses -/

/-- A trivial environment: the remote store is empty, listings are empty and
the fingerprint function is constant. -/
def envNil : Env :=
  { remote := fun _ _ _ => none, listing := fun _ _ => [], hashFn := fun _ => "H1" }

/-- Concatenation law for the post-process hook loop. -/
theorem run_node_post_process_append (a b : List PostHook) :
    _run_node_post_process (a ++ b)
      = _run_node_post_process a ++ _run_node_post_process b := by
  induction a with
  | nil => simp [_run_node_post_process]
  | cons h t ih => simp [_run_node_post_process, ih]

/-! ### Claim theorems -/

/-- C10: a successful (right-valued) request dispatched on a stage with no
Run Context binding is yielded exactly once and unchanged; the run state is
untouched (so no fingerprint is computed or attached, no remote lookup is
made, the fingerprint cache is not consulted and the context is not updated)
and no error is raised. -/
theorem claim10_unbound_stage_passthrough (env : Env) (stage : Stage)
    (req : EitherC) (o : Obj) (st : RunState)
    (hr : req.right = some o) (hc : stage.context = none) :
    sink_request env stage req st = ([⟨req.left, some (Req.create o)⟩], st, none) := by
  unfold sink_request
  rw [hr]
  simp [hc, strOptTruthy]

/-- Witness for C10 at a concrete request and stage. -/
theorem claim10_unbound_stage_passthrough_witness :
    sink_request envNil { type_ := "Table" }
        { left := none, right := some { name := "t1" } } {}
      = ([⟨none, some (Req.create { name := "t1" })⟩], {}, none) :=
  claim10_unbound_stage_passthrough envNil { type_ := "Table" }
    { left := none, right := some { name := "t1" } } { name := "t1" } {} rfl rfl

/-- C7: a value error raised by `sink_request` for one produced request is
caught by the stage loop: the offending request contributes no outcome and
leaves the state untouched, and the remaining requests of the same stage are
dispatched exactly as if the offending request were absent. -/
theorem claim7_value_error_isolated (env : Env) (stage : Stage) (r : EitherC)
    (rs : List EitherC) (st : RunState) (o : List EitherE) (st' : RunState)
    (herr : sink_request env stage r st = (o, st', some RunError.valueError)) :
    o = [] ∧ st' = st ∧
      processStageRequests env stage (r :: rs) st
        = processStageRequests env stage rs st := by
  have hbase : o = [] ∧ st' = st := by
    unfold sink_request at herr
    split at herr
    · simp only [Prod.mk.injEq] at herr
      exact ⟨herr.1.symm, herr.2.1.symm⟩
    · split at herr
      · split at herr
        · rcases yield_and_update_context_err env stage r.left _ st with h | h <;>
            rw [herr] at h <;> simp at h
        · simp only [Prod.mk.injEq] at herr
          simp at herr
      · simp only [Prod.mk.injEq] at herr
        simp at herr
  obtain ⟨ho, hst⟩ := hbase
  subst ho
  subst hst
  refine ⟨rfl, rfl, ?_⟩
  simp only [processStageRequests, herr, List.nil_append]

/-- Witness for C7: a non-nullable stage receiving an empty `Either` raises a
value error; the remaining request of the stage is still dispatched. -/
theorem claim7_value_error_isolated_witness :
    processStageRequests envNil { type_ := "Table", nullable := false }
        ({} :: [{ right := some { name := "t2" } }]) {}
      = processStageRequests envNil { type_ := "Table", nullable := false }
          [{ right := some { name := "t2" } }] {} :=
  (claim7_value_error_isolated envNil { type_ := "Table", nullable := false }
    {} [{ right := some { name := "t2" } }] {} [] {} rfl).2.2

/-- C8: the post-process hooks of a node run after all its candidates are
exhausted, and a hook that raises still contributes the items it yielded
before raising, the exception is swallowed (the node finishes without error)
and the items of all remaining hooks still appear, in order. -/
theorem claim8_post_hooks_isolated (env : Env) (prod : List Obj)
    (stages : List StageSpec) (children : List TNode) (pre : List PostHook)
    (h : PostHook) (post : List PostHook) (st : RunState) (o : List EitherE)
    (st' : RunState) (hexc : h.exc.isSome = true)
    (hcand : processCandidates env stages children prod st = (o, st', none)) :
    processOneNode env (TNode.mk prod stages children (pre ++ h :: post)) st
      = (o ++ (_run_node_post_process pre ++ h.yielded ++ _run_node_post_process post),
         st', none) := by
  simp only [processOneNode]
  rw [hcand]
  dsimp only
  rw [run_node_post_process_append]
  simp [_run_node_post_process, List.append_assoc]

/-- Witness for C8: a raising hook between two ordinary hooks loses nothing
but its own post-raise items. -/
theorem claim8_post_hooks_isolated_witness :
    processOneNode envNil
        (TNode.mk [] []
          []
          ([⟨[⟨none, none⟩], none⟩] ++ ⟨[], some "boom"⟩ :: [⟨[⟨some "e", none⟩], none⟩])) {}
      = ([] ++ ([⟨none, none⟩] ++ [] ++ [⟨some "e", none⟩]), {}, none) :=
  claim8_post_hooks_isolated envNil [] [] [] [⟨[⟨none, none⟩], none⟩]
    ⟨[], some "boom"⟩ [⟨[⟨some "e", none⟩], none⟩] {} [] {} rfl
    (by simp [processCandidates])

/-- C9: populating the fingerprint cache from a bulk listing records every
listed entity carrying a truthy `sourceHash` under its fully-qualified name,
omits every listed entity with a missing or empty hash (a name absent from
the prior cache and listed only with such entities remains a cache miss),
and leaves the cache of every other entity type untouched. -/
theorem claim9_bulk_listing_population (env : Env) (pt ct fqn key : String)
    (cache : Cache) (es : List ListedEntity)
    (hes : env.listing ct (hashParamsFor pt ct fqn) = es) :
    (∀ e ∈ es, strOptTruthy e.sourceHash = true →
      (cacheGet (get_fqn_source_hash_dict env pt ct fqn cache) ct
        e.fullyQualifiedName).isSome) ∧
    (cacheGet cache ct key = none →
      (∀ e ∈ es, e.fullyQualifiedName = key → strOptTruthy e.sourceHash = false) →
      cacheGet (get_fqn_source_hash_dict env pt ct fqn cache) ct key = none) ∧
    (∀ ty, ty ≠ ct →
      cacheGet (get_fqn_source_hash_dict env pt ct fqn cache) ty key
        = cacheGet cache ty key) := by
  unfold get_fqn_source_hash_dict
  rw [hes]
  refine ⟨?_, ?_, ?_⟩
  · intro e he hg
    rw [recordHashes_get]
    have hs := lastGoodHash_isSome e.fullyQualifiedName es e he rfl hg
    match hl : lastGoodHash es e.fullyQualifiedName with
    | some h2 => simp
    | none => rw [hl] at hs; simp at hs
  · intro hmiss hbad
    rw [recordHashes_get, lastGoodHash_none key es hbad]
    simpa using hmiss
  · intro ty hne
    exact recordHashes_other_ty ct ty key hne es cache

/-- A listing environment for the C9 witness: one entity with a hash, one
legacy entity without. -/
def envListW : Env :=
  { remote := fun _ _ _ => none
    listing := fun _ _ =>
      [⟨"svc.db.sch.good", some "H7"⟩, ⟨"svc.db.sch.legacy", none⟩]
    hashFn := fun _ => "H1" }

/-- Witness for C9: the hashed entity is recorded, the legacy one stays a
cache miss, and other types are untouched. -/
theorem claim9_bulk_listing_population_witness :
    (cacheGet (get_fqn_source_hash_dict envListW "DatabaseSchema" "Table"
        "svc.db.sch" []) "Table" "svc.db.sch.good").isSome ∧
    cacheGet (get_fqn_source_hash_dict envListW "DatabaseSchema" "Table"
        "svc.db.sch" []) "Table" "svc.db.sch.legacy" = none := by
  have h := claim9_bulk_listing_population envListW "DatabaseSchema" "Table"
    "svc.db.sch" "svc.db.sch.legacy" []
    [⟨"svc.db.sch.good", some "H7"⟩, ⟨"svc.db.sch.legacy", none⟩] rfl
  refine ⟨h.1 ⟨"svc.db.sch.good", some "H7"⟩ (by simp) (by decide), ?_⟩
  refine h.2.1 rfl ?_
  intro e he hf
  simp at he
  rcases he with he | he <;> subst he
  · simp at hf
  · decide

/-! ### Concrete stages, environments and states used by the dispatcher
claims -/

/-- A caching stage that also demands a write acknowledgement. -/
def stageAckCache : Stage :=
  { type_ := "Table", context := some "table", must_return := true, use_cache := true }

/-- A plain caching stage (overwrite allowed, no acknowledgement). -/
def stageCache : Stage :=
  { type_ := "Table", context := some "table", use_cache := true }

/-- A root-style non-overwrite caching stage. -/
def stageRootCache : Stage :=
  { type_ := "DatabaseService", context := some "service", use_cache := true,
    overwrite := false }

/-- A root-style non-overwrite stage. -/
def stageRoot : Stage :=
  { type_ := "DatabaseService", context := some "service", overwrite := false }

/-- A stage demanding an acknowledgement, without caching. -/
def stageAck : Stage :=
  { type_ := "DatabaseService", context := some "service", must_return := true }

/-- An environment whose remote store always answers with an entity named
"orders". -/
def envOrders : Env :=
  { remote := fun _ _ _ => some { name := "orders" }, listing := fun _ _ => [],
    hashFn := fun _ => "H1" }

/-- An environment whose remote store always answers with an entity named
"SERVER-NAME". -/
def envServerName : Env :=
  { remote := fun _ _ _ => some { name := "SERVER-NAME" }, listing := fun _ _ => [],
    hashFn := fun _ => "H1" }

/-- An environment whose remote store holds the stored "orders" entity with
server-only fields and the old fingerprint. -/
def envStored : Env :=
  { remote := fun _ _ _ =>
      some { name := "orders", sourceHash := some "H0",
             fields := [("id", "uuid-1"), ("size", "10")] }
    listing := fun _ _ => []
    hashFn := fun _ => "H1" }

/-- A run state whose Table cache maps "orders" to fingerprint "H1". -/
def stH1 : RunState := { cache := [("Table", [("orders", "H1")])] }

/-- A run state whose Table cache maps "orders" to fingerprint "H0". -/
def stH0 : RunState := { cache := [("Table", [("orders", "H0")])] }

/-- C1 (counterexample): the claim fails as stated.  On a caching stage that
also demands a write acknowledgement (`must_return`), a cache hit with an
identical fingerprint suppresses the write — no outcome is yielded — but the
dispatcher still issues a remote `get_by_name` call for the acknowledgement,
so "issues no remote call for that candidate" is violated. -/
theorem claim1_cache_hit_counterexample :
    (sink_request envOrders stageAckCache { right := some { name := "orders" } } stH1).1
      = [] ∧
    (sink_request envOrders stageAckCache { right := some { name := "orders" } } stH1).2.1.callLog
      = [("Table", "orders")] :=
  ⟨rfl, rfl⟩

/-- C1 (amended): on a caching stage where no prior remote lookup resolved
the entity and which does not demand a write acknowledgement, a cached
fingerprint equal to the computed one suppresses the write entirely: no
outcome is yielded, no error is raised, and the state keeps the call log,
cache and clock it had after the (unresolving) pre-lookup — only the
context slot is updated. -/
theorem claim1_amended_cache_hit_suppresses (env : Env) (stage : Stage)
    (left : Option String) (right : Obj) (st st0 : RunState) (fqn h : String)
    (hfqn : fqn_from_stage st.ctx stage right.name = fqn)
    (huse : stage.use_cache = true) (hmr : stage.must_return = false)
    (hpl : preLookup env stage fqn st = (none, st0))
    (hcache : cacheGet st0.cache stage.type_ fqn = some h)
    (hne : h ≠ "") (hh : env.hashFn right = h) :
    yield_and_update_context env stage left right st
      = ([],
         { st0 with
           ctx := update_context_name st0.ctx stage
             { right with sourceHash := some h } },
         none) := by
  unfold yield_and_update_context
  dsimp only
  rw [hfqn, hpl]
  dsimp only
  rw [hh, cacheCompare_hit_same env stage fqn _ h _ st0 huse hcache hne]
  simp [hmr]

/-- Witness for the amended C1: identical fingerprint in cache, write
suppressed, no remote call at all. -/
theorem claim1_amended_witness :
    yield_and_update_context envNil stageCache none { name := "orders" } stH1
      = ([], { cache := [("Table", [("orders", "H1")])],
               ctx := [("table", "orders")] }, none) :=
  claim1_amended_cache_hit_suppresses envNil stageCache none { name := "orders" }
    stH1 stH1 "orders" "H1" rfl rfl rfl rfl rfl (by decide) rfl

/-- C2 (counterexample): the claim fails as stated.  With a differing cached
fingerprint the dispatcher does fetch by name, but when the fetch returns
nothing the create request (with the new fingerprint) is yielded — not a
patch — so "yields a patch request instead of a create" is violated. -/
theorem claim2_cache_diff_counterexample :
    (sink_request envNil stageCache { right := some { name := "orders" } } stH0).1
      = [⟨none, some (Req.create { name := "orders", sourceHash := some "H1" })⟩] ∧
    (sink_request envNil stageCache { right := some { name := "orders" } } stH0).2.2
      = none :=
  ⟨rfl, rfl⟩

/-- C2 (amended): on a caching stage where no earlier lookup resolved the
entity (the stage permits overwrite) and the cached fingerprint differs from
the computed one, the dispatcher fetches the current entity by name; when
the fetch returns the original entity, it yields — instead of the create —
one patch request built by shallow-merging the candidate onto the original:
fields the candidate sets take the candidate's values, and fields present
only on the original (server-only fields) keep the original's values. -/
theorem claim2_amended_cache_diff_patches (env : Env) (stage : Stage)
    (left : Option String) (right : Obj) (st : RunState) (fqn cached : String)
    (orig : Obj)
    (hfqn : fqn_from_stage st.ctx stage right.name = fqn)
    (huse : stage.use_cache = true) (hov : stage.overwrite = true)
    (hcache : cacheGet st.cache stage.type_ fqn = some cached)
    (hne : cached ≠ "") (hdiff : cached ≠ env.hashFn right)
    (hget : env.remote st.clock stage.type_ fqn = some orig) :
    (yield_and_update_context env stage left right st
      = ([⟨left, some (Req.patch orig (copyUpdate orig
            { right with sourceHash := some (env.hashFn right) }))⟩],
         { st with
           clock := st.clock + 1
           callLog := st.callLog ++ [(stage.type_, fqn)]
           ctx := update_context_name st.ctx stage
             { right with sourceHash := some (env.hashFn right) } },
         none)) ∧
    (∀ k, assocGet right.fields k = none →
      getField (copyUpdate orig { right with sourceHash := some (env.hashFn right) }) k
        = getField orig k) ∧
    (∀ k v, assocGet right.fields k = some v →
      getField (copyUpdate orig { right with sourceHash := some (env.hashFn right) }) k
        = some v) := by
  refine ⟨?_, ?_, ?_⟩
  · unfold yield_and_update_context
    dsimp only
    rw [hfqn, preLookup_overwrite env stage fqn st hov]
    dsimp only
    rw [cacheCompare_hit_diff_found env stage fqn _ (env.hashFn right) cached _ st
      orig huse hcache hne hdiff hget]
    simp
  · intro k hk
    rw [copyUpdate_getField]
    dsimp only
    rw [hk]
  · intro k v hk
    rw [copyUpdate_getField]
    dsimp only
    rw [hk]

/-- Witness for the amended C2: the stored entity's server-only field `id`
survives the patch and the candidate's `size` overrides the stored value. -/
theorem claim2_amended_witness :
    (yield_and_update_context envStored stageCache none
        { name := "orders", fields := [("size", "20")] } stH0).1
      = [⟨none, some (Req.patch
          { name := "orders", sourceHash := some "H0",
            fields := [("id", "uuid-1"), ("size", "10")] }
          (copyUpdate
            { name := "orders", sourceHash := some "H0",
              fields := [("id", "uuid-1"), ("size", "10")] }
            { name := "orders", sourceHash := some "H1",
              fields := [("size", "20")] }))⟩] ∧
    getField (copyUpdate
        { name := "orders", sourceHash := some "H0",
          fields := [("id", "uuid-1"), ("size", "10")] }
        { name := "orders", sourceHash := some "H1",
          fields := [("size", "20")] }) "id" = some "uuid-1" ∧
    getField (copyUpdate
        { name := "orders", sourceHash := some "H0",
          fields := [("id", "uuid-1"), ("size", "10")] }
        { name := "orders", sourceHash := some "H1",
          fields := [("size", "20")] }) "size" = some "20" := by
  have h := claim2_amended_cache_diff_patches envStored stageCache none
    { name := "orders", fields := [("size", "20")] } stH0 "orders" "H0"
    { name := "orders", sourceHash := some "H0",
      fields := [("id", "uuid-1"), ("size", "10")] }
    rfl rfl rfl rfl (by decide) (by decide) rfl
  exact ⟨by rw [h.1]; rfl, h.2.1 "id" rfl, h.2.2 "size" "20" rfl⟩

/-- C3 (counterexample): the claim fails as stated.  On a caching stage that
forbids overwrite, the pre-lookup resolves the existing remote entity and
the write is suppressed: despite the cache miss no create is yielded, and a
remote lookup was made. -/
theorem claim3_cache_miss_counterexample :
    (sink_request envOrders stageRootCache { right := some { name := "orders" } } {}).1
      = [] ∧
    (sink_request envOrders stageRootCache { right := some { name := "orders" } } {}).2.1.callLog
      = [("DatabaseService", "orders")] :=
  ⟨rfl, rfl⟩

/-- C3 (amended): on a caching stage where no prior remote lookup resolved
the entity (the stage permits overwrite), a cache miss yields the create
request with the computed fingerprint attached to its `sourceHash`; no
remote lookup is made for the comparison — when the stage does not demand an
acknowledgement the call log, cache and clock are untouched and only the
context slot is updated. -/
theorem claim3_amended_cache_miss_creates (env : Env) (stage : Stage)
    (left : Option String) (right : Obj) (st : RunState) (fqn : String)
    (hfqn : fqn_from_stage st.ctx stage right.name = fqn)
    (huse : stage.use_cache = true) (hov : stage.overwrite = true)
    (hcache : cacheGet st.cache stage.type_ fqn = none) :
    ((yield_and_update_context env stage left right st).1
      = [⟨left, some (Req.create { right with sourceHash := some (env.hashFn right) })⟩]) ∧
    (stage.must_return = false →
      yield_and_update_context env stage left right st
        = ([⟨left, some (Req.create { right with sourceHash := some (env.hashFn right) })⟩],
           { st with
             ctx := update_context_name st.ctx stage
               { right with sourceHash := some (env.hashFn right) } },
           none)) := by
  constructor
  · unfold yield_and_update_context
    dsimp only
    rw [hfqn, preLookup_overwrite env stage fqn st hov]
    dsimp only
    rw [cacheCompare_miss env stage fqn _ (env.hashFn right) _ st hcache]
    dsimp only
    split
    · split <;> simp
    · simp
  · intro hmr
    unfold yield_and_update_context
    dsimp only
    rw [hfqn, preLookup_overwrite env stage fqn st hov]
    dsimp only
    rw [cacheCompare_miss env stage fqn _ (env.hashFn right) _ st hcache]
    simp [hmr]

/-- Witness for the amended C3: a cache miss yields the create with the
fingerprint attached and touches nothing but the context. -/
theorem claim3_amended_witness :
    yield_and_update_context envNil stageCache none { name := "orders" } {}
      = ([⟨none, some (Req.create { name := "orders", sourceHash := some "H1" })⟩],
         { ctx := [("table", "orders")] }, none) :=
  (claim3_amended_cache_miss_creates envNil stageCache none { name := "orders" }
    {} "orders" rfl rfl rfl rfl).2 rfl

/-- C4: on a stage flagged `must_return` whose candidate entity was not
resolved during dispatch (the pre-lookup and cache comparison produced no
entity), the dispatcher polls the remote store by name at most 3 times:
if all three attempts return nothing, it raises the missing-acknowledgement
failure after exactly 3 polls (the context is not updated); if some attempt
returns the entity, no error is raised; in every case the ack phase adds at
most 3 calls to the log. -/
theorem claim4_must_return_retries (env : Env) (stage : Stage)
    (left : Option String) (right : Obj) (st st1 : RunState) (fqn : String)
    (req1 : Req) (same1 : Bool)
    (hfqn : fqn_from_stage st.ctx stage right.name = fqn)
    (hmr : stage.must_return = true)
    (hcc : cacheCompare env stage fqn
        { right with sourceHash := some (env.hashFn right) } (env.hashFn right)
        (preLookup env stage fqn st).1 (preLookup env stage fqn st).1.isSome
        (preLookup env stage fqn st).2
      = (none, req1, same1, st1)) :
    ((∀ i, i < 3 → env.remote (st1.clock + i) stage.type_ fqn = none) →
      yield_and_update_context env stage left right st
        = ((if same1 then [] else [⟨left, some req1⟩]),
           { st1 with
             clock := st1.clock + 3
             callLog := st1.callLog
               ++ [(stage.type_, fqn), (stage.type_, fqn), (stage.type_, fqn)] },
           some (RunError.missingAck stage.type_ fqn))) ∧
    (∀ (k : Nat) (e : Obj), k < 3 →
      (∀ i, i < k → env.remote (st1.clock + i) stage.type_ fqn = none) →
      env.remote (st1.clock + k) stage.type_ fqn = some e →
      (yield_and_update_context env stage left right st).2.2 = none) ∧
    ((yield_and_update_context env stage left right st).2.1.callLog.length
      ≤ st1.callLog.length + 3) := by
  have key : yield_and_update_context env stage left right st
      = match ackLoop env stage.type_ fqn 3 st1 with
        | (none, st2) => ((if same1 then [] else [⟨left, some req1⟩]), st2,
            some (RunError.missingAck stage.type_ fqn))
        | (some _, st2) =>
          ((if same1 then [] else [⟨left, some req1⟩]),
           { st2 with
             ctx := update_context_name st2.ctx stage
               { right with sourceHash := some (env.hashFn right) } },
           none) := by
    unfold yield_and_update_context
    dsimp only
    rw [hfqn, hcc]
    dsimp only
    rw [hmr]
    simp only [Option.isNone_none, Bool.and_self, if_true]
  refine ⟨?_, ?_, ?_⟩
  · intro h3
    rw [key, ackLoop_all_none env stage.type_ fqn st1
      (h3 0 (by omega)) (by simpa using h3 1 (by omega)) (h3 2 (by omega))]
  · intro k e hk hnone hsome
    rw [key]
    match k, hk with
    | 0, _ =>
      rw [show ackLoop env stage.type_ fqn 3 st1 = _ from
        ackLoop_first_some env stage.type_ fqn st1 2 e (by simpa using hsome)]
    | 1, _ =>
      rw [ackLoop_step_none env stage.type_ fqn st1 2 (by simpa using hnone 0 (by omega))]
      rw [show ackLoop env stage.type_ fqn 2 _ = _ from
        ackLoop_first_some env stage.type_ fqn _ 1 e (by simpa using hsome)]
    | 2, _ =>
      rw [ackLoop_step_none env stage.type_ fqn st1 2 (by simpa using hnone 0 (by omega))]
      rw [ackLoop_step_none env stage.type_ fqn _ 1 (by simpa using hnone 1 (by omega))]
      rw [show ackLoop env stage.type_ fqn 1 _ = _ from
        ackLoop_first_some env stage.type_ fqn _ 0 e (by simpa [Nat.add_assoc] using hsome)]
  · rw [key]
    have hlen := ackLoop_callLog_le env stage.type_ fqn 3 st1
    rcases hak : ackLoop env stage.type_ fqn 3 st1 with ⟨e, st2⟩
    rw [hak] at hlen
    cases e
    · simpa using hlen
    · simpa using hlen

/-- Witness for C4: with a remote store that never answers, a `must_return`
stage yields its create, polls exactly three times and raises the missing
acknowledgement. -/
theorem claim4_must_return_retries_witness :
    yield_and_update_context envNil stageAck none { name := "svc" } {}
      = ([⟨none, some (Req.create { name := "svc", sourceHash := some "H1" })⟩],
         { clock := 3,
           callLog := [("DatabaseService", "svc"), ("DatabaseService", "svc"),
             ("DatabaseService", "svc")] },
         some (RunError.missingAck "DatabaseService" "svc")) :=
  (claim4_must_return_retries envNil stageAck none { name := "svc" } {} {}
    "svc" (Req.create { name := "svc", sourceHash := some "H1" }) false
    rfl rfl rfl).1 (fun _ _ => rfl)

/-- C5 (counterexample): the claim fails as stated.  The remote lookup of a
non-overwrite stage finds an entity named "SERVER-NAME", yet the Run Context
slot receives the candidate's own name "orders": the context entry is not
updated using the looked-up entity's identity. -/
theorem claim5_context_identity_counterexample :
    assocGet ((sink_request envServerName stageRoot
        { right := some { name := "orders" } } {}).2.1).ctx "service"
      = some "orders" ∧
    ("orders" : String) ≠ "SERVER-NAME" :=
  ⟨rfl, by decide⟩

/-- C5 (amended): on a non-overwrite stage with force-overwrite off whose
remote lookup finds an existing entity, the dispatcher yields no write
request and no error, makes exactly that one lookup call, and updates the
stage's Run Context slot with the candidate request's own name (the
identity of the looked-up entity is not consulted; the two coincide exactly
when the stored entity carries the candidate's name). -/
theorem claim5_amended_no_overwrite_suppresses (env : Env) (stage : Stage)
    (left : Option String) (right : Obj) (st : RunState) (fqn : String) (e : Obj)
    (hfqn : fqn_from_stage st.ctx stage right.name = fqn)
    (hov : stage.overwrite = false) (hfov : env.forceOverwrite = false)
    (hget : env.remote st.clock stage.type_ fqn = some e) :
    (yield_and_update_context env stage left right st
      = ([],
         { st with
           clock := st.clock + 1
           callLog := st.callLog ++ [(stage.type_, fqn)]
           ctx := update_context_name st.ctx stage
             { right with sourceHash := some (env.hashFn right) } },
         none)) ∧
    (∀ key, stage.context = some key →
      assocGet ((yield_and_update_context env stage left right st).2.1).ctx key
        = some right.name) := by
  have key : yield_and_update_context env stage left right st
      = ([],
         { st with
           clock := st.clock + 1
           callLog := st.callLog ++ [(stage.type_, fqn)]
           ctx := update_context_name st.ctx stage
             { right with sourceHash := some (env.hashFn right) } },
         none) := by
    unfold yield_and_update_context
    dsimp only
    rw [hfqn, preLookup_found env stage fqn st e hov hfov hget]
    dsimp only
    rw [cacheCompare_entity_found]
    simp
  refine ⟨key, ?_⟩
  intro k hk
  rw [key]
  exact update_context_name_get_self st.ctx stage _ k hk

/-- Witness for the amended C5: the found-entity case suppresses the write
and binds the context slot to the candidate's name. -/
theorem claim5_amended_witness :
    yield_and_update_context envOrders stageRoot none { name := "orders" } {}
      = ([],
         { clock := 1, callLog := [("DatabaseService", "orders")],
           ctx := [("service", "orders")] },
         none) :=
  (claim5_amended_no_overwrite_suppresses envOrders stageRoot none
    { name := "orders" } {} "orders" { name := "orders" } rfl rfl rfl rfl).1

/-! ### Context clearing and stage-loop composition (claim C6) -/

theorem assocGet_filter_none {α : Type} (p : String × α → Bool) (k : String) :
    ∀ (m : List (String × α)), assocGet m k = none →
      assocGet (m.filter p) k = none
  | [], _ => rfl
  | x :: rest, h => by
    unfold assocGet at h
    by_cases hx : x.1 = k
    · simp [hx] at h
    · have h' : assocGet rest k = none := by
        simpa [hx] using h
      by_cases hp : p x
      · simp [List.filter_cons, hp, assocGet, hx, assocGet_filter_none p k rest h']
      · simp [List.filter_cons, hp, assocGet_filter_none p k rest h']

/-- Clearing never introduces a binding. -/
theorem clearStages_none (k : String) :
    ∀ (stages : List StageSpec) (ctx : Ctx), assocGet ctx k = none →
      assocGet (clearStages stages ctx) k = none
  | [], _, h => h
  | s :: rest, ctx, h => by
    unfold clearStages
    refine clearStages_none k rest _ ?_
    split
    · unfold clear_stage
      split
      · exact assocGet_filter_none _ k ctx h
      · exact h
    · exact h

/-- A slot owned by some clearing stage of the list is absent after the
clearing step, whatever the incoming context. -/
theorem clearStages_get_clear (k : String) :
    ∀ (stages : List StageSpec) (ctx : Ctx) (s : StageSpec), s ∈ stages →
      s.stage.clear_context = true → s.stage.context = some k →
      assocGet (clearStages stages ctx) k = none
  | [], _, s, hs, _, _ => absurd hs (List.not_mem_nil s)
  | x :: rest, ctx, s, hs, hcl, hk => by
    rcases List.mem_cons.mp hs with h | h
    · subst h
      unfold clearStages
      rw [hcl]
      simp only [if_true]
      exact clearStages_none k rest _ (clear_stage_get_self ctx s.stage k hk)
    · unfold clearStages
      exact clearStages_get_clear k rest _ s h hcl hk

/-- A slot that no clearing stage of the list owns survives the clearing
step unchanged. -/
theorem clearStages_get_noclear (k : String) :
    ∀ (stages : List StageSpec) (ctx : Ctx),
      (∀ s ∈ stages, ¬(s.stage.clear_context = true ∧ s.stage.context = some k)) →
      assocGet (clearStages stages ctx) k = assocGet ctx k
  | [], _, _ => rfl
  | x :: rest, ctx, h => by
    unfold clearStages
    rw [clearStages_get_noclear k rest _
      (fun s hs => h s (List.mem_cons_of_mem _ hs))]
    split <;> rename_i hcl
    · have hx := h x (List.mem_cons_self _ _)
      have : x.stage.context ≠ some k := fun e => hx ⟨hcl, e⟩
      exact clear_stage_get_ne ctx x.stage k this
    · rfl

/-- The stage loop over an appended stage list runs the prefix first and, if
no exception escaped, continues the suffix from the prefix's final state:
whatever the earlier stages stored in the Run Context is exactly what the
later stages start from. -/
theorem processAllStages_append (env : Env) (children : List TNode) (c : Obj) :
    ∀ (a b : List StageSpec) (st : RunState),
      processAllStages env children c (a ++ b) st
        = match processAllStages env children c a st with
          | (o, st', some err) => (o, st', some err)
          | (o, st', none) =>
            ((o ++ (processAllStages env children c b st').1),
             (processAllStages env children c b st').2)
  | [], b, st => by
    cases hb : processAllStages env children c b st with
    | mk o r => simp [processAllStages, hb]
  | a :: rest, b, st => by
    simp only [List.cons_append, processAllStages]
    rcases hx : _process_stage env a c children st with ⟨o1, st1, e1⟩
    cases e1 with
    | some err => simp
    | none =>
      dsimp only
      simp only [List.append_eq]
      rw [processAllStages_append env children c rest b st1]
      rcases hr : processAllStages env children c rest st1 with ⟨o2, st2, e2⟩
      cases e2 with
      | some err => simp
      | none => simp [List.append_assoc]

/-- Parent stage of the C6 scenario: binds the "database" slot and declares
`clear_context`. -/
def stageDbClear : Stage :=
  { type_ := "Database", context := some "database", clear_context := true }

/-- Child stage of the C6 scenario: a non-overwrite "Table" stage, so its
pre-lookup records in the call log the fully-qualified name it was able to
build from the context it saw. -/
def stageTblLookup : Stage :=
  { type_ := "Table", context := some "table", overwrite := false }

/-- The two-level topology of the C6 counterexample. -/
def treeC6 : List TNode :=
  [TNode.mk [{ name := "db1" }]
    [⟨stageDbClear, fun o => [{ right := some o }]⟩]
    [TNode.mk [{ name := "t1" }]
      [⟨stageTblLookup, fun o => [{ right := some o }]⟩] [] []]
    []]

/-- C6 (counterexample): the claim fails as stated.  The parent stage sets
the "database" slot to "db1", but because it declares `clear_context` the
slot is cleared before the child node is processed: the child's remote
lookup builds its fully-qualified name as "t1", not "db1.t1" — so a context
value set by the candidate's stage was not visible to its descendant's
processing, contradicting the claimed visibility to all descendant nodes. -/
theorem claim6_clear_context_counterexample :
    (process_nodes envNil treeC6 {}).2.1.callLog = [("Table", "t1")] ∧
    ("Table", "db1.t1") ∉ (process_nodes envNil treeC6 {}).2.1.callLog ∧
    assocGet (process_nodes envNil treeC6 {}).2.1.ctx "database" = none := by
  simp only [treeC6, process_nodes, processOneNode, processCandidates]
  decide

/-- C6 (amended): for one candidate iteration of a node, (1) every later
stage starts from exactly the state the earlier stages of the same candidate
left, so Run Context values they set are visible to every later stage; (2) a
slot owned by a `clear_context` stage is absent from the context handed to
the descendant nodes — clearing runs after the candidate's stages but
before its descendants, so such values are not visible to descendants; (3)
slots owned by no clearing stage survive the clearing step into the
descendants unchanged; (4) the descendants leave untouched every slot that
no descendant stage binds, so a cleared slot is still absent once the
candidate's iteration completes and sibling iterations never observe it. -/
theorem claim6_amended_context_flow (env : Env) (k : String)
    (pre post : List StageSpec) (children : List TNode) (c : Obj)
    (st stp st1 : RunState) (op o1 : List EitherE)
    (hpre : processAllStages env children c pre st = (op, stp, none))
    (hall : processAllStages env children c (pre ++ post) st = (o1, st1, none)) :
    (processAllStages env children c (pre ++ post) st
      = (op ++ (processAllStages env children c post stp).1,
         (processAllStages env children c post stp).2)) ∧
    (∀ s ∈ pre ++ post, s.stage.clear_context = true → s.stage.context = some k →
      assocGet (clearStages (pre ++ post) st1.ctx) k = none) ∧
    ((∀ s ∈ pre ++ post, ¬(s.stage.clear_context = true ∧ s.stage.context = some k)) →
      assocGet (clearStages (pre ++ post) st1.ctx) k = assocGet st1.ctx k) ∧
    (nodesBind k children = false →
      assocGet ((process_nodes env children
          { st1 with ctx := clearStages (pre ++ post) st1.ctx }).2.1).ctx k
        = assocGet (clearStages (pre ++ post) st1.ctx) k) := by
  refine ⟨?_, ?_, ?_, ?_⟩
  · rw [processAllStages_append env children c pre post st, hpre]
  · intro s hs hcl hk
    exact clearStages_get_clear k (pre ++ post) st1.ctx s hs hcl hk
  · intro h
    exact clearStages_get_noclear k (pre ++ post) st1.ctx h
  · intro hb
    exact process_nodes_ctx_frame env k children _ hb

/-- The candidate-setting stage of the C6 witness. -/
def specDb : StageSpec := ⟨stageDbClear, fun o => [{ right := some o }]⟩

/-- A later, non-clearing stage of the C6 witness. -/
def specX : StageSpec :=
  ⟨{ type_ := "X", context := some "x" }, fun o => [{ right := some o }]⟩

/-- Witness for the amended C6: the "database" slot set by the clearing
stage is absent from the context handed to the children and still absent
after the (empty) children are processed. -/
theorem claim6_amended_context_flow_witness :
    assocGet (clearStages [specDb, specX]
        (⟨[("database", "db1"), ("x", "db1")], [], 0, []⟩ : RunState).ctx) "database"
      = none ∧
    assocGet ((process_nodes envNil []
        { (⟨[("database", "db1"), ("x", "db1")], [], 0, []⟩ : RunState) with
          ctx := clearStages [specDb, specX]
            (⟨[("database", "db1"), ("x", "db1")], [], 0, []⟩ : RunState).ctx }).2.1).ctx
        "database"
      = none := by
  have h := claim6_amended_context_flow envNil "database" [specDb] [specX] []
    { name := "db1" } {} ⟨[("database", "db1")], [], 0, []⟩
    ⟨[("database", "db1"), ("x", "db1")], [], 0, []⟩
    [⟨none, some (Req.create { name := "db1", sourceHash := some "H1" })⟩]
    ([⟨none, some (Req.create { name := "db1", sourceHash := some "H1" })⟩]
      ++ [⟨none, some (Req.create { name := "db1", sourceHash := some "H1" })⟩])
    rfl rfl
  have h1 := h.2.1 specDb (by simp) rfl rfl
  refine ⟨h1, ?_⟩
  have h4 := h.2.2.2 (by simp [nodesBind])
  exact h4.trans h1

end TopologyRunner
